import Mathlib

/-!
Shallow embedding of the nanofleet-tasks plugin (src/db.ts, src/mcp-server.ts,
src/rest-api.ts).

The SQLite tables become lists of row structures; each query is a pure
function of the store.  `randomUUID()` and `Date.now()` results are passed in as explicit
parameters (the callers generate them fresh).  SQL `ORDER BY created_at` is
modelled with a stable insertion sort on the key.  Outbound HTTP pushes are
modelled by an environment `env : String → Except String Unit` giving the
transport outcome per recipient; the `try/catch` in `pushToAgent` that logs and
swallows every failure is modelled by mapping both outcomes to the same record
of the attempt.
-/

namespace NanoFleet

/-- Row of the `tasks` table (db.ts, `TaskRow`). -/
structure TaskRow where
  id : String
  title : String
  description : Option String
  status : String
  created_at : Nat
  updated_at : Nat
deriving DecidableEq, Repr

/-- Row of the `task_assignees` table (db.ts, `TaskAssigneeRow`). -/
structure TaskAssigneeRow where
  task_id : String
  agent_id : String
deriving DecidableEq, Repr

/-- Row of the `task_comments` table (db.ts, `TaskCommentRow`). -/
structure TaskCommentRow where
  id : String
  task_id : String
  author_id : String
  author_type : String
  author_name : String
  content : String
  created_at : Nat
deriving DecidableEq, Repr

/-- Row of the `task_results` table (db.ts, `TaskResultRow`). -/
structure TaskResultRow where
  id : String
  task_id : String
  agent_id : String
  content : String
  file_path : Option String
  created_at : Nat
deriving DecidableEq, Repr

/-- The whole SQLite database, rows kept in insertion order. -/
structure Store where
  tasks : List TaskRow
  assignees : List TaskAssigneeRow
  comments : List TaskCommentRow
  results : List TaskResultRow
deriving DecidableEq, Repr

/-- `ORDER BY created_at ASC` key order on result rows. -/
def resAsc (a b : TaskResultRow) : Prop := a.created_at ≤ b.created_at

/-- `ORDER BY created_at DESC` key order on result rows. -/
def resDesc (a b : TaskResultRow) : Prop := b.created_at ≤ a.created_at

/-- `ORDER BY created_at ASC` key order on comment rows. -/
def comAsc (a b : TaskCommentRow) : Prop := a.created_at ≤ b.created_at

instance : DecidableRel resAsc := fun a b => Nat.decLe a.created_at b.created_at

instance : DecidableRel resDesc := fun a b => Nat.decLe b.created_at a.created_at

instance : DecidableRel comAsc := fun a b => Nat.decLe a.created_at b.created_at

instance : IsTotal TaskResultRow resAsc := ⟨fun a b => Nat.le_total a.created_at b.created_at⟩

instance : IsTrans TaskResultRow resAsc := ⟨fun _ _ _ h₁ h₂ => Nat.le_trans h₁ h₂⟩

instance : IsTotal TaskResultRow resDesc := ⟨fun a b => Nat.le_total b.created_at a.created_at⟩

instance : IsTrans TaskResultRow resDesc := ⟨fun _ _ _ h₁ h₂ => Nat.le_trans h₂ h₁⟩

instance : IsTotal TaskCommentRow comAsc := ⟨fun a b => Nat.le_total a.created_at b.created_at⟩

instance : IsTrans TaskCommentRow comAsc := ⟨fun _ _ _ h₁ h₂ => Nat.le_trans h₁ h₂⟩

/-- db.ts `getTask`: `SELECT * FROM tasks WHERE id = ?` (id is the primary key,
so the first match is the row). -/
def getTask (s : Store) (id : String) : Option TaskRow :=
  s.tasks.find? (fun t => t.id == id)

/-- db.ts `updateTaskStatus`: `UPDATE tasks SET status = ?, updated_at = ?
WHERE id = ?`; returns the updated store and whether any row changed. -/
def updateTaskStatus (s : Store) (id status : String) (now : Nat) : Store × Bool :=
  ({ s with
      tasks := s.tasks.map (fun t =>
        if t.id == id then { t with status := status, updated_at := now } else t) },
    s.tasks.any (fun t => t.id == id))

/-- db.ts `deleteTask`: deletes the dependent rows (assignees, then comments,
then results) and finally the task row; returns whether the task row existed. -/
def deleteTask (s : Store) (id : String) : Store × Bool :=
  let s₁ := { s with assignees := s.assignees.filter (fun a => !(a.task_id == id)) }
  let s₂ := { s₁ with comments := s₁.comments.filter (fun c => !(c.task_id == id)) }
  let s₃ := { s₂ with results := s₂.results.filter (fun r => !(r.task_id == id)) }
  ({ s₃ with tasks := s₃.tasks.filter (fun t => !(t.id == id)) },
    s₃.tasks.any (fun t => t.id == id))

/-- db.ts `getTaskAssignees`: agent ids of the task's assignee rows. -/
def getTaskAssignees (s : Store) (taskId : String) : List String :=
  (s.assignees.filter (fun a => a.task_id == taskId)).map TaskAssigneeRow.agent_id

/-- db.ts `addComment`: inserts one comment row (the id is a fresh UUID, the
timestamp is `Date.now()`; both are passed in). -/
def addComment (s : Store) (cid taskId authorId authorType authorName content : String)
    (now : Nat) : Store × TaskCommentRow :=
  let row : TaskCommentRow := ⟨cid, taskId, authorId, authorType, authorName, content, now⟩
  ({ s with comments := s.comments ++ [row] }, row)

/-- db.ts `getTaskComments`: the task's comments, `ORDER BY created_at ASC`. -/
def getTaskComments (s : Store) (taskId : String) : List TaskCommentRow :=
  List.insertionSort comAsc (s.comments.filter (fun c => c.task_id == taskId))

/-- db.ts `addTaskResult`: inserts one result row (fresh UUID id and
`Date.now()` timestamp passed in). -/
def addTaskResult (s : Store) (rid taskId agentId content : String)
    (filePath : Option String) (now : Nat) : Store × TaskResultRow :=
  let row : TaskResultRow := ⟨rid, taskId, agentId, content, filePath, now⟩
  ({ s with results := s.results ++ [row] }, row)

/-- db.ts `getTaskResults`: the task's results, `ORDER BY created_at ASC`. -/
def getTaskResults (s : Store) (taskId : String) : List TaskResultRow :=
  List.insertionSort resAsc (s.results.filter (fun r => r.task_id == taskId))

/-- The correlated subquery of db.ts `getLatestResultPerAgent`: all result rows
sharing the outer row's `task_id` and `agent_id`. -/
def groupOf (s : Store) (r : TaskResultRow) : List TaskResultRow :=
  s.results.filter (fun r₂ => r₂.task_id == r.task_id && r₂.agent_id == r.agent_id)

/-- `SELECT id FROM task_results tr2 WHERE ... ORDER BY created_at DESC
LIMIT 1` of db.ts `getLatestResultPerAgent`. -/
def latestIdsFor (s : Store) (r : TaskResultRow) : List String :=
  ((List.insertionSort resDesc (groupOf s r)).take 1).map TaskResultRow.id

/-- db.ts `getLatestResultPerAgent`: keeps a result row iff its id is the id
selected by the correlated `LIMIT 1` subquery for its agent, then orders by
`created_at ASC`.  Pure read of the store. -/
def getLatestResultPerAgent (s : Store) (taskId : String) : List TaskResultRow :=
  List.insertionSort resAsc
    (s.results.filter (fun r => r.task_id == taskId && (latestIdsFor s r).contains r.id))

/-- db.ts `createTask`, assignee loop: each `INSERT INTO task_assignees` throws
on a `(task_id, agent_id)` primary-key violation, leaving the rows inserted so
far in place (there is no enclosing transaction); the error value carries the
store state at the moment of the throw. -/
def insertAssignees (s : Store) (taskId : String) :
    List String → Except (Store × String) Store
  | [] => Except.ok s
  | a :: rest =>
    if s.assignees.any (fun x => x.task_id == taskId && x.agent_id == a) then
      Except.error (s, "UNIQUE constraint failed: task_assignees")
    else
      insertAssignees { s with assignees := s.assignees ++ [⟨taskId, a⟩] } taskId rest

/-- db.ts `createTask`: inserts the task row with status `todo`, then one
assignee row per entry of `assigneeIds` (no transaction: a failing assignee
insert leaves the task row and earlier assignee rows persisted). -/
def createTask (s : Store) (id title : String) (description : Option String)
    (assigneeIds : List String) (now : Nat) : Except (Store × String) (Store × TaskRow) :=
  if s.tasks.any (fun t => t.id == id) then
    Except.error (s, "UNIQUE constraint failed: tasks.id")
  else
    let row : TaskRow := ⟨id, title, description, "todo", now, now⟩
    let s₁ : Store := { s with tasks := s.tasks ++ [row] }
    match insertAssignees s₁ id assigneeIds with
    | Except.error es => Except.error es
    | Except.ok s₂ => Except.ok (s₂, row)

/-- mcp-server.ts `getCallerAgentId`: the identity bound in the ambient
request context, or the literal `"unknown"` when none is bound. -/
def getCallerAgentId (ctx : Option String) : String := ctx.getD "unknown"

/-- Structured form of the JSON payloads the MCP tools return.  `schemaError`
is the zod input-schema rejection that fires before a handler runs. -/
inductive McpResponse where
  | errorNotFound
  | errorForbidden
  | schemaError
  | okStatus (taskId status : String)
  | okResult (resultId taskId : String)
deriving DecidableEq, Repr

/-- mcp-server.ts tool `update_task_status`.  The zod schema restricts
`status` to `in_progress` or `review` before the handler runs.  `ctx` is the
ambient caller identity, `agentName` the `getAgentName` lookup result, `cid`
and `cnow` the fresh comment id and timestamp, `now` the status timestamp. -/
def update_task_status (s : Store) (ctx : Option String) (taskId status agentName cid : String)
    (now cnow : Nat) : Store × McpResponse :=
  if !(status == "in_progress" || status == "review") then (s, McpResponse.schemaError)
  else
    let agentId := getCallerAgentId ctx
    match getTask s taskId with
    | none => (s, McpResponse.errorNotFound)
    | some _ =>
      if !((getTaskAssignees s taskId).contains agentId) then (s, McpResponse.errorForbidden)
      else
        let s₁ := (updateTaskStatus s taskId status now).1
        let statusLabel := if status == "in_progress" then "started working on this task"
          else "submitted this task for review"
        let s₂ := (addComment s₁ cid taskId agentId "agent" agentName
          ("[System] " ++ agentName ++ " " ++ statusLabel ++ ".") cnow).1
        (s₂, McpResponse.okStatus taskId status)

/-- mcp-server.ts tool `post_task_result`: records the result, forces status
to `review`, appends the system comment.  The comment's file suffix follows
the JS truthiness test `filePath ? ... : ''`: it is omitted when `filePath`
is absent or the empty string.  `rid`, `cid` are the fresh UUIDs; `rnow`,
`unow`, `cnow` the successive `Date.now()` readings. -/
def post_task_result (s : Store) (ctx : Option String) (taskId content : String)
    (filePath : Option String) (agentName rid cid : String) (rnow unow cnow : Nat) :
    Store × McpResponse :=
  let agentId := getCallerAgentId ctx
  match getTask s taskId with
  | none => (s, McpResponse.errorNotFound)
  | some _ =>
    if !((getTaskAssignees s taskId).contains agentId) then (s, McpResponse.errorForbidden)
    else
      let s₁ := (addTaskResult s rid taskId agentId content filePath rnow).1
      let s₂ := (updateTaskStatus s₁ taskId "review" unow).1
      let msg := "[System] " ++ agentName ++ " submitted a result" ++
        (match filePath with
          | some p => if p == "" then "" else " (file: " ++ p ++ ")"
          | none => "") ++ ". Task is now in review."
      let s₃ := (addComment s₂ cid taskId agentId "agent" agentName msg cnow).1
      (s₃, McpResponse.okResult rid taskId)

/-- rest-api.ts `buildTaskDetail`: task joined with assignees, comments
(`ORDER BY created_at ASC`) and results (`ORDER BY created_at ASC`). -/
structure TaskDetail where
  task : TaskRow
  assigneeList : List String
  commentList : List TaskCommentRow
  resultList : List TaskResultRow
deriving DecidableEq, Repr

/-- rest-api.ts `buildTaskDetail`. -/
def buildTaskDetail (s : Store) (taskId : String) : Option TaskDetail :=
  match getTask s taskId with
  | none => none
  | some task =>
    some ⟨task, getTaskAssignees s taskId, getTaskComments s taskId, getTaskResults s taskId⟩

/-- Structured form of the REST route responses.  `invalidArg` is an HTTP 400,
`notFound` a 404, `serverError` the 500 produced when an uncaught storage
exception escapes the handler. -/
inductive RestResponse where
  | notFound
  | invalidArg (msg : String)
  | serverError
  | createdTask (task : TaskRow)
  | okTask (detail : Option TaskDetail)
  | okDeleted
deriving DecidableEq, Repr

/-- rest-api.ts `notifyAssignees` message body (description line omitted when
the description is absent or empty, matching the JS truthiness test). -/
def assignmentMessage (taskId title : String) (description : Option String) : String :=
  String.intercalate "\n"
    (["[New task assigned to you]", "Title: " ++ title] ++
      (match description with
        | some d => if d == "" then [] else ["Description: " ++ d]
        | none => []) ++
      ["taskId: " ++ taskId, "",
        "Use get_task(\"" ++ taskId ++ "\") to see details, then update_task_status(\"" ++
          taskId ++ "\", \"in_progress\") when you start, and post_task_result(\"" ++
          taskId ++ "\", yourResult) when done."])

/-- rest-api.ts `notifyRejection` message body. -/
def rejectionMessage (taskId title feedback : String) : String :=
  String.intercalate "\n"
    ["[Task returned for revision]", "Title: " ++ title, "taskId: " ++ taskId, "",
      "Feedback: " ++ feedback, "",
      "Please revise and call post_task_result(\"" ++ taskId ++
        "\", yourResult) again when done."]

/-- rest-api.ts `pushToAgent` wrapped in `notifyAssignees`: one push attempt
per assignee; the `try/catch` logs and swallows a failed transport outcome, so
both outcomes leave the same record of the attempt. -/
def notifyAssignees (env : String → Except String Unit) (taskId : String)
    (assigneeIds : List String) (title : String) (description : Option String) :
    List (String × String) :=
  assigneeIds.map (fun a =>
    match env a with
    | Except.ok _ => (a, assignmentMessage taskId title description)
    | Except.error _ => (a, assignmentMessage taskId title description))

/-- rest-api.ts `pushToAgent` wrapped in `notifyRejection`: one push attempt
per assignee, failures logged and swallowed. -/
def notifyRejection (env : String → Except String Unit) (taskId : String)
    (assigneeIds : List String) (title feedback : String) : List (String × String) :=
  assigneeIds.map (fun a =>
    match env a with
    | Except.ok _ => (a, rejectionMessage taskId title feedback)
    | Except.error _ => (a, rejectionMessage taskId title feedback))

/-- rest-api.ts `POST /tasks`: validates the body (`!title`, `!assigneeIds`
and `length === 0`, with JS falsiness of the empty string), then calls
`createTask` and fires the fire-and-forget assignment notifications.  An
exception from `createTask` escapes the handler uncaught (500), leaving the
partially written store.  Returns the store, the response and the list of
push attempts. -/
def postTasks (env : String → Except String Unit) (s : Store) (title : Option String)
    (description : Option String) (assigneeIds : Option (List String)) (id : String)
    (now : Nat) : Store × RestResponse × List (String × String) :=
  if title.getD "" == "" || (assigneeIds.getD []).isEmpty then
    (s, RestResponse.invalidArg "title and at least one assigneeId are required", [])
  else
    match createTask s id (title.getD "") description (assigneeIds.getD []) now with
    | Except.error es => (es.1, RestResponse.serverError, [])
    | Except.ok st =>
      (st.1, RestResponse.createdTask st.2,
        notifyAssignees env st.2.id (assigneeIds.getD []) st.2.title st.2.description)

/-- rest-api.ts `PATCH /tasks/:id/status`: the human review decision.
`action` and `feedback` are the parsed body fields; `cid`, `unow`, `cnow` the
fresh comment id and the two timestamps.  Returns the store, the response and
the rejection-notification attempts. -/
def patchTaskStatus (env : String → Except String Unit) (s : Store) (taskId : String)
    (action : Option String) (feedback : Option String) (cid : String) (unow cnow : Nat) :
    Store × RestResponse × List (String × String) :=
  match getTask s taskId with
  | none => (s, RestResponse.notFound, [])
  | some task =>
    if !(action == some "approve" || action == some "reject") then
      (s, RestResponse.invalidArg "action must be approve or reject", [])
    else if action == some "approve" then
      let s₁ := (updateTaskStatus s taskId "done" unow).1
      let s₂ := (addComment s₁ cid taskId "human" "human" "Human"
        "[System] Task approved and marked as done." cnow).1
      (s₂, RestResponse.okTask (buildTaskDetail s₂ taskId), [])
    else
      if feedback.getD "" == "" then
        (s, RestResponse.invalidArg "feedback is required when rejecting", [])
      else
        let fb := feedback.getD ""
        let s₁ := (updateTaskStatus s taskId "in_progress" unow).1
        let s₂ := (addComment s₁ cid taskId "human" "human" "Human"
          ("[Feedback] " ++ fb) cnow).1
        (s₂, RestResponse.okTask (buildTaskDetail s₂ taskId),
          notifyRejection env taskId (getTaskAssignees s₂ taskId) task.title fb)

/-- rest-api.ts `DELETE /tasks/:id`. -/
def deleteTaskRoute (s : Store) (taskId : String) : Store × RestResponse :=
  let d := deleteTask s taskId
  if d.2 then (d.1, RestResponse.okDeleted) else (d.1, RestResponse.notFound)

/-- An inbound request to the MCP HTTP endpoint (mcp-server.ts
`startMcpServer`): URL path, HTTP method, optional `mcp-session-id` header and
optional `agent_id` query parameter. -/
structure McpRequest where
  path : String
  method : String
  sessionId : Option String
  agent_id : Option String
deriving DecidableEq, Repr

/-- What the fetch dispatcher of `startMcpServer` does with a request.
`handled a` means the request was dispatched to the stored session transport
with identity `a` bound in the ambient context (the only branch from which
tools, and hence store operations, run on behalf of a session identity). -/
inductive FetchOutcome where
  | pathNotFound
  | sessionDeleted
  | handled (agentId : String)
  | invalidSession
  | initialized (sid : String) (agentId : String)
deriving DecidableEq, Repr

/-- mcp-server.ts `startMcpServer` fetch dispatcher over the in-memory
`sessions` map (token, bound agent id).  The two branches that create a fresh
transport delegate to SDK code outside src/; they are modelled from the spec:
a request carrying a session token the server does not know is rejected as an
invalid session without executing any tool (`invalidSession`), and a request
carrying no token opens a new session whose fresh token `freshSid` is bound to
the caller-supplied identity (`initialized`). -/
def fetchMcp (sessions : List (String × String)) (req : McpRequest) (freshSid : String) :
    List (String × String) × FetchOutcome :=
  if !(req.path == "/mcp") then (sessions, FetchOutcome.pathNotFound)
  else
    let agentIdFromUrl := req.agent_id.getD "unknown"
    match req.sessionId with
    | some sid =>
      if req.method == "DELETE" then
        (sessions.filter (fun p => !(p.1 == sid)), FetchOutcome.sessionDeleted)
      else
        match sessions.find? (fun p => p.1 == sid) with
        | some p => (sessions, FetchOutcome.handled p.2)
        | none => (sessions, FetchOutcome.invalidSession)
    | none =>
      (sessions ++ [(freshSid, agentIdFromUrl)], FetchOutcome.initialized freshSid agentIdFromUrl)

/-! ### Helper lemmas -/

/-- `find?` over the `UPDATE tasks` map: looking up the updated id yields the
updated row. -/
theorem find?_map_update (tid st : String) (now : Nat) (l : List TaskRow) :
    (l.map (fun t => if t.id == tid then { t with status := st, updated_at := now } else t)).find?
        (fun t => t.id == tid) =
      (l.find? (fun t => t.id == tid)).map
        (fun t => { t with status := st, updated_at := now }) := by
  induction l with
  | nil => rfl
  | cons t ts ih =>
    rw [List.map_cons]
    by_cases h : (t.id == tid) = true
    · rw [if_pos h]
      rw [@List.find?_cons_of_pos TaskRow (fun x => x.id == tid)
            ({ t with status := st, updated_at := now } : TaskRow) _ h,
          @List.find?_cons_of_pos TaskRow (fun x => x.id == tid) t _ h]
      rfl
    · rw [if_neg h]
      rw [@List.find?_cons_of_neg TaskRow (fun x => x.id == tid) t _ h,
          @List.find?_cons_of_neg TaskRow (fun x => x.id == tid) t _ h, ih]

/-- Looking up a task after `updateTaskStatus` on the same id returns the
stored row with the new status and timestamp. -/
theorem getTask_updateTaskStatus (s : Store) (tid st : String) (now : Nat) :
    getTask (updateTaskStatus s tid st now).1 tid =
      (getTask s tid).map (fun t => { t with status := st, updated_at := now }) := by
  unfold getTask updateTaskStatus
  exact find?_map_update tid st now s.tasks

/-! ### C3 -/

/-- C3: for every existing task, a review decision with action `reject` and
missing feedback (absent field or empty string, the JS-falsy cases) returns
the InvalidArgument response (HTTP 400) and leaves the store untouched: no
status change, no comment, and an empty list of notification attempts. -/
theorem c3_reject_without_feedback (env : String → Except String Unit) (s : Store)
    (tid : String) (task : TaskRow) (fb : Option String) (cid : String) (unow cnow : Nat)
    (hfind : getTask s tid = some task) (hfb : fb.getD "" = "") :
    patchTaskStatus env s tid (some "reject") fb cid unow cnow =
      (s, RestResponse.invalidArg "feedback is required when rejecting", []) := by
  unfold patchTaskStatus
  rw [hfind]
  simp [hfb]

/-- Witness for C3 at a concrete store. -/
theorem c3_reject_without_feedback_witness :
    getTask ⟨[⟨"T", "t", none, "review", 1, 1⟩], [⟨"T", "A"⟩], [], []⟩ "T" =
        some ⟨"T", "t", none, "review", 1, 1⟩ ∧
    patchTaskStatus (fun _ => Except.ok ())
        ⟨[⟨"T", "t", none, "review", 1, 1⟩], [⟨"T", "A"⟩], [], []⟩ "T"
        (some "reject") none "cid" 5 6 =
      (⟨[⟨"T", "t", none, "review", 1, 1⟩], [⟨"T", "A"⟩], [], []⟩,
        RestResponse.invalidArg "feedback is required when rejecting", []) :=
  ⟨by decide,
    c3_reject_without_feedback (fun _ => Except.ok ())
      ⟨[⟨"T", "t", none, "review", 1, 1⟩], [⟨"T", "A"⟩], [], []⟩ "T"
      ⟨"T", "t", none, "review", 1, 1⟩ none "cid" 5 6 (by decide) (by decide)⟩

/-! ### C9 -/

/-- C9: task creation is not atomic.  With the duplicate assignee list
`["a", "a"]`, the second `task_assignees` insert violates the composite
primary key and throws after the task row and the first assignee row are
already persisted: the `POST /tasks` request fails with an uncaught storage
error (500), yet the partially created task remains in the store and is
visible to `getTask`. -/
theorem c9_partial_task_creation :
    (postTasks (fun _ => Except.ok ()) ⟨[], [], [], []⟩ (some "t") none
        (some ["a", "a"]) "T1" 5).2.1 = RestResponse.serverError ∧
    (postTasks (fun _ => Except.ok ()) ⟨[], [], [], []⟩ (some "t") none
        (some ["a", "a"]) "T1" 5).1 =
      ⟨[⟨"T1", "t", none, "todo", 5, 5⟩], [⟨"T1", "a"⟩], [], []⟩ ∧
    getTask (postTasks (fun _ => Except.ok ()) ⟨[], [], [], []⟩ (some "t") none
        (some ["a", "a"]) "T1" 5).1 "T1" = some ⟨"T1", "t", none, "todo", 5, 5⟩ := by
  decide

/-! ### C4 -/

/-- C4: for every existing task and every caller identity not in the task's
assignee set, `update_task_status` (with a schema-valid status) and
`post_task_result` both answer with the Forbidden error and return the store
unchanged: no status change, no result row, no comment. -/
theorem c4_not_assignee_forbidden (s : Store) (tid : String) (task : TaskRow)
    (A st content agentName rid cid : String) (fp : Option String)
    (now cnow n₁ n₂ n₃ : Nat)
    (hfind : getTask s tid = some task)
    (hnot : (getTaskAssignees s tid).contains A = false)
    (hst : st = "in_progress" ∨ st = "review") :
    update_task_status s (some A) tid st agentName cid now cnow =
        (s, McpResponse.errorForbidden) ∧
    post_task_result s (some A) tid content fp agentName rid cid n₁ n₂ n₃ =
        (s, McpResponse.errorForbidden) := by
  have hnot₂ : A ∉ getTaskAssignees s tid := by simpa using hnot
  constructor
  · unfold update_task_status
    rcases hst with rfl | rfl <;> simp [hfind, hnot₂, getCallerAgentId]
  · unfold post_task_result
    rw [show getCallerAgentId (some A) = A from rfl, hfind]
    simp [hnot₂]

/-- Witness for C4 at a concrete store. -/
theorem c4_not_assignee_forbidden_witness :
    getTask ⟨[⟨"T", "t", none, "todo", 1, 1⟩], [⟨"T", "A"⟩], [], []⟩ "T" =
        some ⟨"T", "t", none, "todo", 1, 1⟩ ∧
    (getTaskAssignees ⟨[⟨"T", "t", none, "todo", 1, 1⟩], [⟨"T", "A"⟩], [], []⟩ "T").contains "B" =
        false ∧
    update_task_status ⟨[⟨"T", "t", none, "todo", 1, 1⟩], [⟨"T", "A"⟩], [], []⟩
        (some "B") "T" "review" "Bob" "cid" 3 4 =
      (⟨[⟨"T", "t", none, "todo", 1, 1⟩], [⟨"T", "A"⟩], [], []⟩, McpResponse.errorForbidden) :=
  ⟨by decide, by decide,
    (c4_not_assignee_forbidden ⟨[⟨"T", "t", none, "todo", 1, 1⟩], [⟨"T", "A"⟩], [], []⟩
      "T" ⟨"T", "t", none, "todo", 1, 1⟩ "B" "review" "c" "Bob" "rid" "cid" none
      3 4 5 6 7 (by decide) (by decide) (Or.inr rfl)).1⟩

/-! ### C8 -/

/-- C8 counterexample: after a caller terminates its session (removing the
token `"tok"`), a subsequent request that carries the same token but uses the
DELETE method is answered with the 204 termination response, not rejected as
an invalid session — so, as stated, "every subsequent request carrying that
token is rejected as an invalid session" fails at this input. -/
theorem c8_delete_again_not_rejected :
    (fetchMcp [("tok", "alice")] ⟨"/mcp", "DELETE", some "tok", none⟩ "fresh").1 = [] ∧
    (fetchMcp [] ⟨"/mcp", "DELETE", some "tok", none⟩ "fresh").2 =
        FetchOutcome.sessionDeleted ∧
    FetchOutcome.sessionDeleted ≠ FetchOutcome.invalidSession := by
  decide

/-- C8 (amended): explicit termination removes the token from the session
table; afterwards every subsequent non-DELETE request carrying the token is
rejected as an invalid session with the table unchanged (so no tool, hence no
lifecycle or store operation, runs on behalf of any identity), while a
repeated DELETE for the token succeeds idempotently with no effect and
likewise executes nothing. -/
theorem c8_terminated_token (S : List (String × String)) (tok : String)
    (q : Option String) (f : String) :
    ((fetchMcp S ⟨"/mcp", "DELETE", some tok, q⟩ f).2 = FetchOutcome.sessionDeleted ∧
      ∀ p ∈ (fetchMcp S ⟨"/mcp", "DELETE", some tok, q⟩ f).1, p.1 ≠ tok) ∧
    ((∀ p ∈ S, p.1 ≠ tok) →
      (∀ m : String, m ≠ "DELETE" →
          fetchMcp S ⟨"/mcp", m, some tok, q⟩ f = (S, FetchOutcome.invalidSession)) ∧
      fetchMcp S ⟨"/mcp", "DELETE", some tok, q⟩ f = (S, FetchOutcome.sessionDeleted)) := by
  refine ⟨⟨by simp [fetchMcp], ?_⟩, fun hgone => ⟨fun m hm => ?_, ?_⟩⟩
  · intro p hp
    simp only [fetchMcp] at hp
    simp at hp
    exact hp.2
  · have hm₂ : (m == "DELETE") = false := by
      cases hb : m == "DELETE"
      · rfl
      · exact absurd (by simpa using hb) hm
    have hfind : S.find? (fun p => p.1 == tok) = none := by
      rw [List.find?_eq_none]
      intro p hp
      simp [hgone p hp]
    simp [fetchMcp, hm₂, hfind]
  · have hfilter : S.filter (fun p => !(p.1 == tok)) = S := by
      rw [List.filter_eq_self]
      intro p hp
      simp [hgone p hp]
    simp [fetchMcp, hfilter]

/-- Witness for C8 (amended) at a concrete session table. -/
theorem c8_terminated_token_witness :
    (fetchMcp [("other", "bob")] ⟨"/mcp", "DELETE", some "tok", none⟩ "f").2 =
        FetchOutcome.sessionDeleted ∧
    ((∀ p ∈ [("other", "bob")], Prod.fst p ≠ "tok") ∧ "POST" ≠ "DELETE") ∧
    fetchMcp [("other", "bob")] ⟨"/mcp", "POST", some "tok", none⟩ "f" =
        ([("other", "bob")], FetchOutcome.invalidSession) :=
  ⟨(c8_terminated_token [("other", "bob")] "tok" none "f").1.1,
    ⟨by decide, by decide⟩,
    ((c8_terminated_token [("other", "bob")] "tok" none "f").2 (by decide)).1
      "POST" (by decide)⟩

/-- Success-path reduction of the `update_task_status` tool for the
`in_progress` target. -/
theorem update_task_status_ok (s : Store) (ctx : Option String) (tid agentName cid : String)
    (now cnow : Nat) (task : TaskRow)
    (hfind : getTask s tid = some task)
    (hmem : (getTaskAssignees s tid).contains (getCallerAgentId ctx) = true) :
    update_task_status s ctx tid "in_progress" agentName cid now cnow =
      ((addComment (updateTaskStatus s tid "in_progress" now).1 cid tid (getCallerAgentId ctx)
          "agent" agentName
          ("[System] " ++ agentName ++ " " ++ "started working on this task" ++ ".") cnow).1,
        McpResponse.okStatus tid "in_progress") := by
  simp only [update_task_status]
  rw [hfind, hmem]
  rfl

/-- Success-path reduction of the `post_task_result` tool. -/
theorem post_task_result_ok (s : Store) (ctx : Option String)
    (tid content : String) (fp : Option String) (agentName rid cid : String)
    (n₁ n₂ n₃ : Nat) (task : TaskRow)
    (hfind : getTask s tid = some task)
    (hmem : (getTaskAssignees s tid).contains (getCallerAgentId ctx) = true) :
    post_task_result s ctx tid content fp agentName rid cid n₁ n₂ n₃ =
      ((addComment (updateTaskStatus
            (addTaskResult s rid tid (getCallerAgentId ctx) content fp n₁).1
            tid "review" n₂).1 cid tid (getCallerAgentId ctx) "agent" agentName
          ("[System] " ++ agentName ++ " submitted a result" ++
            (match fp with
              | some p => if p == "" then "" else " (file: " ++ p ++ ")"
              | none => "") ++ ". Task is now in review.") n₃).1,
        McpResponse.okResult rid tid) := by
  simp only [post_task_result]
  rw [hfind, hmem]
  rfl

/-! ### C10 -/

/-- C10: a session opened without an `agent_id` query parameter is bound to
the literal identity `"unknown"`; an empty ambient context makes
`getCallerAgentId` return `"unknown"`; and the tools proceed with that
identity rather than rejecting — so a task whose assignee set contains the
string `"unknown"` is mutable by unidentified callers via
`update_task_status` and `post_task_result`. -/
theorem c10_unknown_caller :
    getCallerAgentId none = "unknown" ∧
    (∀ (S : List (String × String)) (m f : String),
        (fetchMcp S ⟨"/mcp", m, none, none⟩ f).2 = FetchOutcome.initialized f "unknown") ∧
    (∀ (s : Store) (tid : String) (task : TaskRow) (agentName cid : String) (now cnow : Nat),
        getTask s tid = some task →
        (getTaskAssignees s tid).contains "unknown" = true →
        (update_task_status s none tid "in_progress" agentName cid now cnow).2 =
            McpResponse.okStatus tid "in_progress" ∧
        getTask (update_task_status s none tid "in_progress" agentName cid now cnow).1 tid =
            some { task with status := "in_progress", updated_at := now }) ∧
    (∀ (s : Store) (tid : String) (task : TaskRow) (content agentName rid cid : String)
        (fp : Option String) (n₁ n₂ n₃ : Nat),
        getTask s tid = some task →
        (getTaskAssignees s tid).contains "unknown" = true →
        (post_task_result s none tid content fp agentName rid cid n₁ n₂ n₃).2 =
            McpResponse.okResult rid tid) := by
  refine ⟨rfl, fun S m f => by simp [fetchMcp], ?_, ?_⟩
  · intro s tid task agentName cid now cnow hfind hmem
    rw [update_task_status_ok s none tid agentName cid now cnow task hfind hmem]
    refine ⟨rfl, ?_⟩
    show getTask (updateTaskStatus s tid "in_progress" now).1 tid = _
    rw [getTask_updateTaskStatus, hfind]
    rfl
  · intro s tid task content agentName rid cid fp n₁ n₂ n₃ hfind hmem
    rw [post_task_result_ok s none tid content fp agentName rid cid n₁ n₂ n₃ task hfind hmem]

/-- A small concrete store used to instantiate the theorems: one task in
`todo`, assigned to agents `A` and `unknown`. -/
def wStore : Store :=
  ⟨[⟨"T", "t", none, "todo", 1, 1⟩], [⟨"T", "A"⟩, ⟨"T", "unknown"⟩], [], []⟩

/-! ### C1 -/

/-- C1: for every existing task (any prior status) and every agent `A` in its
assignee set, `post_task_result` succeeds, leaves the task's status `review`,
and appends exactly one new result row (agent `A`, given content and file
path) and exactly one new system comment. -/
theorem c1_post_task_result_review (s : Store) (tid : String) (task : TaskRow)
    (A content agentName rid cid : String) (fp : Option String) (n₁ n₂ n₃ : Nat)
    (hfind : getTask s tid = some task)
    (hmem : (getTaskAssignees s tid).contains A = true) :
    (post_task_result s (some A) tid content fp agentName rid cid n₁ n₂ n₃).2 =
        McpResponse.okResult rid tid ∧
    getTask (post_task_result s (some A) tid content fp agentName rid cid n₁ n₂ n₃).1 tid =
        some { task with status := "review", updated_at := n₂ } ∧
    (post_task_result s (some A) tid content fp agentName rid cid n₁ n₂ n₃).1.results =
        s.results ++ [⟨rid, tid, A, content, fp, n₁⟩] ∧
    (post_task_result s (some A) tid content fp agentName rid cid n₁ n₂ n₃).1.comments =
        s.comments ++ [⟨cid, tid, A, "agent", agentName,
          "[System] " ++ agentName ++ " submitted a result" ++
            (match fp with
              | some p => if p == "" then "" else " (file: " ++ p ++ ")"
              | none => "") ++ ". Task is now in review.", n₃⟩] := by
  rw [post_task_result_ok s (some A) tid content fp agentName rid cid n₁ n₂ n₃ task hfind hmem]
  refine ⟨rfl, ?_, rfl, rfl⟩
  show getTask (updateTaskStatus (addTaskResult s rid tid A content fp n₁).1 tid "review" n₂).1
      tid = _
  rw [getTask_updateTaskStatus]
  show (getTask s tid).map _ = _
  rw [hfind]
  rfl

/-- Witness for C1 on `wStore`: the hypotheses hold by evaluation and the
theorem yields the success response. -/
theorem c1_post_task_result_review_witness :
    getTask wStore "T" = some ⟨"T", "t", none, "todo", 1, 1⟩ ∧
    (getTaskAssignees wStore "T").contains "A" = true ∧
    (post_task_result wStore (some "A") "T" "done" none "Alice" "rid" "cid" 10 11 12).2 =
        McpResponse.okResult "rid" "T" :=
  ⟨by decide, by decide,
    (c1_post_task_result_review wStore "T" ⟨"T", "t", none, "todo", 1, 1⟩ "A" "done"
      "Alice" "rid" "cid" none 10 11 12 (by decide) (by decide)).1⟩

/-! ### C6 -/

/-- The rejection fan-out records one attempt per assignee, independent of
each push's transport outcome. -/
theorem notifyRejection_eq (env : String → Except String Unit) (tid : String)
    (l : List String) (title fb : String) :
    notifyRejection env tid l title fb =
      l.map (fun a => (a, rejectionMessage tid title fb)) := by
  unfold notifyRejection
  exact List.map_congr_left (fun a _ => by cases env a <;> rfl)

/-- Reduction of the reject branch of `PATCH /tasks/:id/status` for an
existing task and non-empty feedback. -/
theorem patchTaskStatus_reject (env : String → Except String Unit) (s : Store)
    (tid : String) (task : TaskRow) (fb cid : String) (unow cnow : Nat)
    (hfind : getTask s tid = some task) (hfb : (fb == "") = false) :
    patchTaskStatus env s tid (some "reject") (some fb) cid unow cnow =
      ((addComment (updateTaskStatus s tid "in_progress" unow).1 cid tid "human" "human"
          "Human" ("[Feedback] " ++ fb) cnow).1,
        RestResponse.okTask (buildTaskDetail
          (addComment (updateTaskStatus s tid "in_progress" unow).1 cid tid "human" "human"
            "Human" ("[Feedback] " ++ fb) cnow).1 tid),
        notifyRejection env tid
          (getTaskAssignees
            (addComment (updateTaskStatus s tid "in_progress" unow).1 cid tid "human" "human"
              "Human" ("[Feedback] " ++ fb) cnow).1 tid) task.title fb) := by
  simp only [patchTaskStatus, Option.getD_some]
  rw [hfind, hfb]
  rfl

/-- C6: for every existing task and non-empty feedback `fb`, the reject
decision sets status `in_progress`, appends exactly one comment whose content
contains `fb`, attempts one rejection notification per current assignee, and
the outcome of any push (the environment) changes neither the response nor
the stored state. -/
theorem c6_reject_feedback (env : String → Except String Unit) (s : Store) (tid : String)
    (task : TaskRow) (fb cid : String) (unow cnow : Nat)
    (hfind : getTask s tid = some task) (hfb : (fb == "") = false) :
    getTask (patchTaskStatus env s tid (some "reject") (some fb) cid unow cnow).1 tid =
        some { task with status := "in_progress", updated_at := unow } ∧
    (patchTaskStatus env s tid (some "reject") (some fb) cid unow cnow).1.comments =
        s.comments ++ [⟨cid, tid, "human", "human", "Human", "[Feedback] " ++ fb, cnow⟩] ∧
    (∃ pre suf : String, ("[Feedback] " ++ fb) = pre ++ fb ++ suf) ∧
    (patchTaskStatus env s tid (some "reject") (some fb) cid unow cnow).2.2 =
        (getTaskAssignees s tid).map (fun a => (a, rejectionMessage tid task.title fb)) ∧
    (patchTaskStatus env s tid (some "reject") (some fb) cid unow cnow).2.1 =
        RestResponse.okTask (buildTaskDetail
          (patchTaskStatus env s tid (some "reject") (some fb) cid unow cnow).1 tid) ∧
    (∀ env₂ : String → Except String Unit,
        patchTaskStatus env₂ s tid (some "reject") (some fb) cid unow cnow =
          patchTaskStatus env s tid (some "reject") (some fb) cid unow cnow) := by
  rw [patchTaskStatus_reject env s tid task fb cid unow cnow hfind hfb]
  refine ⟨?_, rfl, ⟨"[Feedback] ", "", by rw [String.append_empty]⟩, ?_, rfl, ?_⟩
  · show getTask (updateTaskStatus s tid "in_progress" unow).1 tid = _
    rw [getTask_updateTaskStatus]
    show (getTask s tid).map _ = _
    rw [hfind]
    rfl
  · show notifyRejection env tid (getTaskAssignees s tid) task.title fb = _
    exact notifyRejection_eq env tid (getTaskAssignees s tid) task.title fb
  · intro env₂
    rw [patchTaskStatus_reject env₂ s tid task fb cid unow cnow hfind hfb]
    show (_, _, notifyRejection env₂ tid (getTaskAssignees s tid) task.title fb) =
      (_, _, notifyRejection env tid (getTaskAssignees s tid) task.title fb)
    rw [notifyRejection_eq, notifyRejection_eq]

/-- Witness for C6 on `wStore`: the notification attempts target both
assignees `A` and `unknown`. -/
theorem c6_reject_feedback_witness :
    getTask wStore "T" = some ⟨"T", "t", none, "todo", 1, 1⟩ ∧
    (("fix" : String) == "") = false ∧
    (patchTaskStatus (fun _ => Except.error "down") wStore "T" (some "reject") (some "fix")
        "cid" 7 8).2.2 =
      [("A", rejectionMessage "T" "t" "fix"), ("unknown", rejectionMessage "T" "t" "fix")] :=
  ⟨by decide, by decide,
    (c6_reject_feedback (fun _ => Except.error "down") wStore "T"
      ⟨"T", "t", none, "todo", 1, 1⟩ "fix" "cid" 7 8 (by decide) (by decide)).2.2.2.1⟩

/-! ### C7 -/

/-- Referential integrity: every assignee, comment and result row references
an existing task row (spec §3 invariant; holds in every reachable store
because rows are only added behind a `getTask` check and deletion cascades). -/
def refIntegrity (s : Store) : Prop :=
  (∀ a ∈ s.assignees, ∃ t ∈ s.tasks, t.id = a.task_id) ∧
  (∀ c ∈ s.comments, ∃ t ∈ s.tasks, t.id = c.task_id) ∧
  (∀ r ∈ s.results, ∃ t ∈ s.tasks, t.id = r.task_id)

/-- C7: deleting an existing task removes the task row and exactly its
assignment, comment and result rows (the others are untouched), after which
`getTask` on that id is `none`; deleting a non-existent id (in a store with
referential integrity) returns NotFound and changes nothing. -/
theorem c7_delete_cascade :
    (∀ (s : Store) (tid : String) (task : TaskRow), getTask s tid = some task →
        (deleteTaskRoute s tid).2 = RestResponse.okDeleted ∧
        getTask (deleteTaskRoute s tid).1 tid = none ∧
        (deleteTaskRoute s tid).1.tasks = s.tasks.filter (fun t => !(t.id == tid)) ∧
        (deleteTaskRoute s tid).1.assignees = s.assignees.filter (fun a => !(a.task_id == tid)) ∧
        (deleteTaskRoute s tid).1.comments = s.comments.filter (fun c => !(c.task_id == tid)) ∧
        (deleteTaskRoute s tid).1.results = s.results.filter (fun r => !(r.task_id == tid))) ∧
    (∀ (s : Store) (tid : String), refIntegrity s → getTask s tid = none →
        deleteTaskRoute s tid = (s, RestResponse.notFound)) := by
  constructor
  · intro s tid task hfind
    have hfind₂ : s.tasks.find? (fun t => t.id == tid) = some task := hfind
    have hpred := List.find?_some hfind₂
    have hany : (deleteTask s tid).2 = true :=
      List.any_eq_true.mpr ⟨task, List.mem_of_find?_eq_some hfind₂, hpred⟩
    have hroute : deleteTaskRoute s tid = ((deleteTask s tid).1, RestResponse.okDeleted) := by
      simp only [deleteTaskRoute, hany, if_true]
    refine ⟨by rw [hroute], ?_, by rw [hroute]; rfl, by rw [hroute]; rfl,
      by rw [hroute]; rfl, by rw [hroute]; rfl⟩
    rw [hroute]
    show List.find? _ (s.tasks.filter fun t => !(t.id == tid)) = none
    rw [List.find?_eq_none]
    intro x hx
    have hx₂ := (List.mem_filter.mp hx).2
    simp only [Bool.not_eq_eq_eq_not, Bool.not_true] at hx₂
    simp [hx₂]
  · intro s tid hri hnone
    have hall := List.find?_eq_none.mp hnone
    have hta : s.tasks.filter (fun t => !(t.id == tid)) = s.tasks := by
      rw [List.filter_eq_self]
      intro t ht
      simpa using fun h => hall t ht (by simp [h])
    have has : s.assignees.filter (fun a => !(a.task_id == tid)) = s.assignees := by
      rw [List.filter_eq_self]
      intro a ha
      obtain ⟨t, htmem, hteq⟩ := hri.1 a ha
      simpa using fun h => hall t htmem (by simp [hteq, h])
    have hcs : s.comments.filter (fun c => !(c.task_id == tid)) = s.comments := by
      rw [List.filter_eq_self]
      intro c hc
      obtain ⟨t, htmem, hteq⟩ := hri.2.1 c hc
      simpa using fun h => hall t htmem (by simp [hteq, h])
    have hrs : s.results.filter (fun r => !(r.task_id == tid)) = s.results := by
      rw [List.filter_eq_self]
      intro r hr
      obtain ⟨t, htmem, hteq⟩ := hri.2.2 r hr
      simpa using fun h => hall t htmem (by simp [hteq, h])
    have hanyf : s.tasks.any (fun t => t.id == tid) = false := by
      rw [List.any_eq_false]
      exact hall
    have hdel : deleteTask s tid = (s, false) := by
      simp only [deleteTask, hta, has, hcs, hrs, hanyf]
    simp only [deleteTaskRoute, hdel]
    rfl

/-- Witness for C7 on `wStore`: deleting the existing task `T` reports
success and removes its rows. -/
theorem c7_delete_cascade_witness :
    getTask wStore "T" = some ⟨"T", "t", none, "todo", 1, 1⟩ ∧
    (deleteTaskRoute wStore "T").2 = RestResponse.okDeleted ∧
    refIntegrity wStore :=
  ⟨by decide,
    (c7_delete_cascade.1 wStore "T" ⟨"T", "t", none, "todo", 1, 1⟩ (by decide)).1,
    by unfold refIntegrity; decide⟩

/-- Witness for C10 on `wStore` (assignee set contains `"unknown"`): an
unidentified caller's status update succeeds. -/
theorem c10_unknown_caller_witness :
    getTask wStore "T" = some ⟨"T", "t", none, "todo", 1, 1⟩ ∧
    (getTaskAssignees wStore "T").contains "unknown" = true ∧
    (update_task_status wStore none "T" "in_progress" "n" "cid" 3 4).2 =
        McpResponse.okStatus "T" "in_progress" :=
  ⟨by decide, by decide,
    (c10_unknown_caller.2.2.1 wStore "T" ⟨"T", "t", none, "todo", 1, 1⟩ "n" "cid" 3 4
      (by decide) (by decide)).1⟩

/-! ### C5 -/

/-- Membership in the four-value status enum (db.ts `TaskStatus`). -/
def validStatusB (st : String) : Bool :=
  st == "todo" || st == "in_progress" || st == "review" || st == "done"

/-- Every task row in the store carries one of the four enumerated statuses. -/
def statusesOk (s : Store) : Prop := ∀ t ∈ s.tasks, validStatusB t.status = true

/-- `updateTaskStatus` preserves the status invariant when the written status
is one of the four values. -/
theorem statusesOk_updateTaskStatus (s : Store) (tid st : String) (now : Nat)
    (hs : statusesOk s) (hst : validStatusB st = true) :
    statusesOk (updateTaskStatus s tid st now).1 := by
  intro t ht
  have ht₂ : t ∈ s.tasks.map (fun u =>
      if u.id == tid then { u with status := st, updated_at := now } else u) := ht
  obtain ⟨u, hu, hut⟩ := List.mem_map.mp ht₂
  rw [← hut]
  by_cases h : (u.id == tid) = true
  · rw [if_pos h]
    exact hst
  · rw [if_neg h]
    exact hs u hu

/-- The assignee-insert loop never touches task rows, on either outcome. -/
theorem statusesOk_insertAssignees (taskId : String) :
    ∀ (l : List String) (s : Store), statusesOk s →
      (match insertAssignees s taskId l with
        | Except.ok s₂ => statusesOk s₂
        | Except.error es => statusesOk es.1) := by
  intro l
  induction l with
  | nil => intro s hs; exact hs
  | cons a rest ih =>
    intro s hs
    simp only [insertAssignees]
    by_cases h : (s.assignees.any fun x => x.task_id == taskId && x.agent_id == a) = true
    · rw [if_pos h]
      exact hs
    · rw [if_neg h]
      exact ih _ hs

/-- `createTask` preserves the status invariant (it only ever writes the
status `todo`), on both the committed and the partially-failed outcome. -/
theorem statusesOk_createTask (s : Store) (id title : String) (description : Option String)
    (aids : List String) (now : Nat) (hs : statusesOk s) :
    (match createTask s id title description aids now with
      | Except.ok st => statusesOk st.1
      | Except.error es => statusesOk es.1) := by
  simp only [createTask]
  by_cases hdup : (s.tasks.any fun t => t.id == id) = true
  · rw [if_pos hdup]
    exact hs
  · rw [if_neg hdup]
    have hs₁ : statusesOk
        { s with tasks := s.tasks ++ [⟨id, title, description, "todo", now, now⟩] } := by
      intro t ht
      rcases List.mem_append.mp ht with h | h
      · exact hs t h
      · rw [List.mem_singleton.mp h]
        rfl
    have hall := statusesOk_insertAssignees id aids
      { s with tasks := s.tasks ++ [⟨id, title, description, "todo", now, now⟩] } hs₁
    cases hins : insertAssignees
        { s with tasks := s.tasks ++ [⟨id, title, description, "todo", now, now⟩] } id aids with
    | error es =>
      rw [hins] at hall
      exact hall
    | ok s₂ =>
      rw [hins] at hall
      exact hall

/-- C5: in every store whose tasks all carry one of the four enumerated
statuses, each public operation — task creation (`POST /tasks`), the agent
tools `update_task_status` and `post_task_result` (any input), the human
review decision (approve and reject branches of `PATCH /tasks/:id/status`),
and task deletion — yields a store satisfying the same invariant: no other
status value is ever persisted. -/
theorem c5_status_invariant (s : Store) (hs : statusesOk s) :
    (∀ (env : String → Except String Unit) (title description : Option String)
        (aids : Option (List String)) (id : String) (now : Nat),
        statusesOk (postTasks env s title description aids id now).1) ∧
    (∀ (ctx : Option String) (tid st agentName cid : String) (now cnow : Nat),
        statusesOk (update_task_status s ctx tid st agentName cid now cnow).1) ∧
    (∀ (ctx : Option String) (tid content agentName rid cid : String) (fp : Option String)
        (n₁ n₂ n₃ : Nat),
        statusesOk (post_task_result s ctx tid content fp agentName rid cid n₁ n₂ n₃).1) ∧
    (∀ (env : String → Except String Unit) (tid : String) (action feedback : Option String)
        (cid : String) (unow cnow : Nat),
        statusesOk (patchTaskStatus env s tid action feedback cid unow cnow).1) ∧
    (∀ tid : String, statusesOk (deleteTaskRoute s tid).1) := by
  refine ⟨?_, ?_, ?_, ?_, ?_⟩
  · intro env title description aids id now
    simp only [postTasks]
    by_cases hv : (title.getD "" == "" || (aids.getD []).isEmpty) = true
    · rw [if_pos hv]
      exact hs
    · rw [if_neg hv]
      have hall := statusesOk_createTask s id (title.getD "") description (aids.getD []) now hs
      cases hct : createTask s id (title.getD "") description (aids.getD []) now with
      | error es =>
        rw [hct] at hall
        exact hall
      | ok st =>
        rw [hct] at hall
        exact hall
  · intro ctx tid st agentName cid now cnow
    simp only [update_task_status]
    cases hvs : (st == "in_progress" || st == "review") with
    | false => exact hs
    | true =>
      have hst : validStatusB st = true := by
        cases hip : (st == "in_progress") with
        | true =>
          rw [show st = "in_progress" from by simpa using hip]
          rfl
        | false =>
          have hrv : (st == "review") = true := by
            rw [hip] at hvs
            simpa using hvs
          rw [show st = "review" from by simpa using hrv]
          rfl
      cases hg : getTask s tid with
      | none => exact hs
      | some task =>
        cases hc : (getTaskAssignees s tid).contains (getCallerAgentId ctx) with
        | false => exact hs
        | true => exact statusesOk_updateTaskStatus s tid st now hs hst
  · intro ctx tid content agentName rid cid fp n₁ n₂ n₃
    simp only [post_task_result]
    cases hg : getTask s tid with
    | none => exact hs
    | some task =>
      cases hc : (getTaskAssignees s tid).contains (getCallerAgentId ctx) with
      | false => exact hs
      | true =>
        exact statusesOk_updateTaskStatus
          (addTaskResult s rid tid (getCallerAgentId ctx) content fp n₁).1 tid "review" n₂ hs rfl
  · intro env tid action feedback cid unow cnow
    simp only [patchTaskStatus]
    cases hg : getTask s tid with
    | none => exact hs
    | some task =>
      cases ha : (action == some "approve" || action == some "reject") with
      | false => exact hs
      | true =>
        cases hap : (action == some "approve") with
        | true => exact statusesOk_updateTaskStatus s tid "done" unow hs rfl
        | false =>
          cases hf : (feedback.getD "" == "") with
          | true => exact hs
          | false => exact statusesOk_updateTaskStatus s tid "in_progress" unow hs rfl
  · intro tid
    have hsub : statusesOk (deleteTask s tid).1 := by
      intro t ht
      have ht₂ : t ∈ s.tasks.filter (fun t => !(t.id == tid)) := ht
      exact hs t (List.mem_of_mem_filter ht₂)
    simp only [deleteTaskRoute]
    cases hd : (deleteTask s tid).2 with
    | false => exact hsub
    | true => exact hsub

/-- Witness for C5 on `wStore`: the invariant holds initially and is kept by
an approve decision. -/
theorem c5_status_invariant_witness :
    statusesOk wStore ∧
    statusesOk (patchTaskStatus (fun _ => Except.ok ()) wStore "T" (some "approve") none
      "cid" 2 3).1 :=
  ⟨by unfold statusesOk; decide,
    (c5_status_invariant wStore (by unfold statusesOk; decide)).2.2.2.1
      (fun _ => Except.ok ()) "T" (some "approve") none "cid" 2 3⟩

/-! ### C2 -/

/-- Membership characterization of the rows kept by `getLatestResultPerAgent`:
a row survives iff it belongs to the task and its id is the one the correlated
subquery selects for its agent. -/
theorem mem_latest_iff (s : Store) (tid : String) (r : TaskResultRow) :
    r ∈ getLatestResultPerAgent s tid ↔
      r ∈ s.results ∧ r.task_id = tid ∧ r.id ∈ latestIdsFor s r := by
  unfold getLatestResultPerAgent
  rw [List.mem_insertionSort, List.mem_filter]
  simp [and_assoc]

/-- Membership in the correlated subquery's row set. -/
theorem mem_groupOf (s : Store) (r x : TaskResultRow) :
    x ∈ groupOf s r ↔ x ∈ s.results ∧ x.task_id = r.task_id ∧ x.agent_id = r.agent_id := by
  unfold groupOf
  rw [List.mem_filter]
  simp [and_assoc]

/-- The head of the descending sort of a group belongs to the group. -/
theorem sortDesc_head_mem (s : Store) (r g : TaskResultRow) (gs : List TaskResultRow)
    (h : List.insertionSort resDesc (groupOf s r) = g :: gs) : g ∈ groupOf s r := by
  have hperm := List.perm_insertionSort resDesc (groupOf s r)
  rw [h] at hperm
  exact hperm.mem_iff.mp (List.mem_cons_self g gs)

/-- The head of the descending sort dominates every row of the group. -/
theorem sortDesc_head_max (s : Store) (r g : TaskResultRow) (gs : List TaskResultRow)
    (h : List.insertionSort resDesc (groupOf s r) = g :: gs) :
    ∀ x ∈ groupOf s r, x.created_at ≤ g.created_at := by
  intro x hx
  have hperm := List.perm_insertionSort resDesc (groupOf s r)
  have hx₂ : x ∈ g :: gs := h ▸ hperm.mem_iff.mpr hx
  have hsorted := List.sorted_insertionSort resDesc (groupOf s r)
  rw [h] at hsorted
  rcases List.mem_cons.mp hx₂ with rfl | hx₃
  · exact Nat.le_refl x.created_at
  · exact List.rel_of_sorted_cons hsorted x hx₃

/-- A kept row (under unique result ids, the table's primary key) is the head
of the descending sort of its own group. -/
theorem kept_eq_head (s : Store) (r : TaskResultRow)
    (hids : (s.results.map TaskResultRow.id).Nodup)
    (hmem : r ∈ s.results) (hlat : r.id ∈ latestIdsFor s r) :
    ∃ gs, List.insertionSort resDesc (groupOf s r) = r :: gs := by
  cases h : List.insertionSort resDesc (groupOf s r) with
  | nil =>
    unfold latestIdsFor at hlat
    rw [h] at hlat
    simp at hlat
  | cons g gs =>
    have hgid : r.id = g.id := by
      unfold latestIdsFor at hlat
      rw [h] at hlat
      simpa using hlat
    have hg : g ∈ s.results := ((mem_groupOf s r g).mp (sortDesc_head_mem s r g gs h)).1
    have heq : r = g := List.inj_on_of_nodup_map hids hmem hg hgid
    exact ⟨gs, by rw [heq]⟩

/-- Each kept row carries the maximum `created_at` among its agent's rows for
the task. -/
theorem latest_is_max (s : Store) (tid : String)
    (hids : (s.results.map TaskResultRow.id).Nodup) :
    ∀ r ∈ getLatestResultPerAgent s tid, ∀ x ∈ s.results,
      x.task_id = tid → x.agent_id = r.agent_id → x.created_at ≤ r.created_at := by
  intro r hr x hx htid hag
  obtain ⟨hmem, htidr, hlat⟩ := (mem_latest_iff s tid r).mp hr
  obtain ⟨gs, hsort⟩ := kept_eq_head s r hids hmem hlat
  have hxg : x ∈ groupOf s r := (mem_groupOf s r x).mpr ⟨hx, by rw [htid, htidr], hag⟩
  exact sortDesc_head_max s r r gs hsort x hxg

/-- Two kept rows for the same agent coincide (they are both the head of the
same group). -/
theorem latest_agents_inj (s : Store) (tid : String)
    (hids : (s.results.map TaskResultRow.id).Nodup) :
    ∀ r₁ ∈ getLatestResultPerAgent s tid, ∀ r₂ ∈ getLatestResultPerAgent s tid,
      r₁.agent_id = r₂.agent_id → r₁ = r₂ := by
  intro r₁ h₁ r₂ h₂ hag
  obtain ⟨m₁, t₁, l₁⟩ := (mem_latest_iff s tid r₁).mp h₁
  obtain ⟨m₂, t₂, l₂⟩ := (mem_latest_iff s tid r₂).mp h₂
  obtain ⟨gs₁, hsort₁⟩ := kept_eq_head s r₁ hids m₁ l₁
  obtain ⟨gs₂, hsort₂⟩ := kept_eq_head s r₂ hids m₂ l₂
  have hgeq : groupOf s r₁ = groupOf s r₂ := by
    unfold groupOf
    rw [t₁, t₂, hag]
  rw [hgeq, hsort₂] at hsort₁
  injection hsort₁ with hhead _
  exact hhead.symm

/-- The kept rows mention each agent at most once. -/
theorem latest_agents_nodup (s : Store) (tid : String)
    (hids : (s.results.map TaskResultRow.id).Nodup) :
    ((getLatestResultPerAgent s tid).map TaskResultRow.agent_id).Nodup := by
  have hKnodup : (s.results.filter
      (fun r => r.task_id == tid && (latestIdsFor s r).contains r.id)).Nodup :=
    (List.Nodup.of_map TaskResultRow.id hids).filter _
  have hLnodup : (getLatestResultPerAgent s tid).Nodup := by
    unfold getLatestResultPerAgent
    exact (List.perm_insertionSort resAsc _).nodup_iff.mpr hKnodup
  exact List.Nodup.map_on (latest_agents_inj s tid hids) hLnodup

/-- Every agent with at least one result row for the task has a kept row. -/
theorem latest_covers (s : Store) (tid a : String) (x : TaskResultRow)
    (hx : x ∈ s.results) (ht : x.task_id = tid) (ha : x.agent_id = a) :
    ∃ r ∈ getLatestResultPerAgent s tid, r.agent_id = a := by
  have hxg : x ∈ groupOf s x := (mem_groupOf s x x).mpr ⟨hx, rfl, rfl⟩
  cases h : List.insertionSort resDesc (groupOf s x) with
  | nil =>
    exfalso
    have hmem := (List.perm_insertionSort resDesc (groupOf s x)).mem_iff.mpr hxg
    rw [h] at hmem
    exact List.not_mem_nil x hmem
  | cons g gs =>
    obtain ⟨hgres, hgt, hga⟩ := (mem_groupOf s x g).mp (sortDesc_head_mem s x g gs h)
    have hgrp : groupOf s g = groupOf s x := by
      unfold groupOf
      rw [hgt, hga]
    have hlat : g.id ∈ latestIdsFor s g := by
      unfold latestIdsFor
      rw [hgrp, h]
      simp
    exact ⟨g, (mem_latest_iff s tid g).mpr ⟨hgres, by rw [hgt, ht], hlat⟩, by rw [hga, ha]⟩

/-- The spec's worked result history: R1 by agent A at 10, R2 by agent A at
30, R3 by agent B at 20, inserted in that order. -/
def c2Store : Store :=
  ⟨[⟨"T", "t", none, "review", 1, 1⟩], [⟨"T", "A"⟩, ⟨"T", "B"⟩], [],
    [⟨"r1", "T", "A", "c1", none, 10⟩, ⟨"r2", "T", "A", "c2", none, 30⟩,
      ⟨"r3", "T", "B", "c3", none, 20⟩]⟩

/-- C2: `getLatestResultPerAgent` is a pure read-only projection returning,
under the table's id primary key, exactly one row per distinct agent that has
submitted for the task — the row with the maximum `created_at` among that
agent's rows — in ascending `created_at` order; on the spec's worked history
R1(A, 10), R2(A, 30), R3(B, 20) it returns exactly [R3, R2]. -/
theorem c2_latest_per_agent :
    (∀ (s : Store) (tid : String), (s.results.map TaskResultRow.id).Nodup →
        (∀ r ∈ getLatestResultPerAgent s tid, r ∈ s.results ∧ r.task_id = tid) ∧
        ((getLatestResultPerAgent s tid).map TaskResultRow.agent_id).Nodup ∧
        (∀ a : String,
          (∃ x ∈ s.results, x.task_id = tid ∧ x.agent_id = a) ↔
            ∃ r ∈ getLatestResultPerAgent s tid, r.agent_id = a) ∧
        (∀ r ∈ getLatestResultPerAgent s tid, ∀ x ∈ s.results,
          x.task_id = tid → x.agent_id = r.agent_id → x.created_at ≤ r.created_at)) ∧
    (∀ (s : Store) (tid : String), List.Sorted resAsc (getLatestResultPerAgent s tid)) ∧
    getLatestResultPerAgent c2Store "T" =
      [⟨"r3", "T", "B", "c3", none, 20⟩, ⟨"r2", "T", "A", "c2", none, 30⟩] := by
  refine ⟨?_, fun s tid => List.sorted_insertionSort resAsc _, by decide⟩
  intro s tid hids
  refine ⟨?_, latest_agents_nodup s tid hids, ?_, latest_is_max s tid hids⟩
  · intro r hr
    have h := (mem_latest_iff s tid r).mp hr
    exact ⟨h.1, h.2.1⟩
  · intro a
    constructor
    · rintro ⟨x, hx, ht, ha⟩
      exact latest_covers s tid a x hx ht ha
    · rintro ⟨r, hr, ha⟩
      have h := (mem_latest_iff s tid r).mp hr
      exact ⟨r, h.1, h.2.1, ha⟩

/-- Witness for C2 on the worked history store. -/
theorem c2_latest_per_agent_witness :
    (c2Store.results.map TaskResultRow.id).Nodup ∧
    ∀ r ∈ getLatestResultPerAgent c2Store "T", r ∈ c2Store.results ∧ r.task_id = "T" :=
  ⟨by decide, fun r hr => (c2_latest_per_agent.1 c2Store "T" (by decide)).1 r hr⟩

end NanoFleet
